import Mathlib

/-!
# Verification of the explain-my-config core

A shallow embedding, in Lean 4, of the core of the `explain-my-config`
command-line tool: the environment-style / JSON / YAML parsing layer
(`explain_my_config/parser.py`) and the explanation engine
(`explain_my_config/explainer.py`).  Python strings are modelled as
`String` / `List Char` (ASCII case mapping, as all reference-table data is
ASCII); Python dictionaries holding the reference tables are modelled as
ordered association lists, matching the insertion order of the source,
which the source itself relies on for first-match-wins scanning.
-/

/-! ## ASCII character helpers (Python `str.upper` / `str.lower` on ASCII) -/

/-- ASCII upper-casing of one character, as Python's `str.upper` acts on the
ASCII range.  Written as an explicit table so that facts about it are
provable by case analysis. -/
def pyCharUpper (c : Char) : Char :=
  match c with
  | 'a' => 'A' | 'b' => 'B' | 'c' => 'C' | 'd' => 'D' | 'e' => 'E' | 'f' => 'F'
  | 'g' => 'G' | 'h' => 'H' | 'i' => 'I' | 'j' => 'J' | 'k' => 'K' | 'l' => 'L'
  | 'm' => 'M' | 'n' => 'N' | 'o' => 'O' | 'p' => 'P' | 'q' => 'Q' | 'r' => 'R'
  | 's' => 'S' | 't' => 'T' | 'u' => 'U' | 'v' => 'V' | 'w' => 'W' | 'x' => 'X'
  | 'y' => 'Y' | 'z' => 'Z'
  | c => c

/-- ASCII lower-casing of one character, as Python's `str.lower` acts on the
ASCII range. -/
def pyCharLower (c : Char) : Char :=
  match c with
  | 'A' => 'a' | 'B' => 'b' | 'C' => 'c' | 'D' => 'd' | 'E' => 'e' | 'F' => 'f'
  | 'G' => 'g' | 'H' => 'h' | 'I' => 'i' | 'J' => 'j' | 'K' => 'k' | 'L' => 'l'
  | 'M' => 'm' | 'N' => 'n' | 'O' => 'o' | 'P' => 'p' | 'Q' => 'q' | 'R' => 'r'
  | 'S' => 's' | 'T' => 't' | 'U' => 'u' | 'V' => 'v' | 'W' => 'w' | 'X' => 'x'
  | 'Y' => 'y' | 'Z' => 'z'
  | c => c

/-- Python `key.upper()`. -/
def pyUpper (s : String) : String := ⟨s.data.map pyCharUpper⟩

/-- Python `key.lower()`. -/
def pyLower (s : String) : String := ⟨s.data.map pyCharLower⟩

/-- Python `key.replace('.', '_')` (single-character replacement). -/
def pyReplaceDot (s : String) : String :=
  ⟨s.data.map (fun c => if c = '.' then '_' else c)⟩

/-- The whitespace characters stripped by Python's `str.strip()` (ASCII
fragment, which is all the parser ever meets on the inputs it handles). -/
def isPySpace (c : Char) : Bool :=
  c = ' ' || c = '\t' || c = '\n' || c = '\r' || c = '\x0b' || c = '\x0c'

/-- Python `str.strip()` on a character list. -/
def pyStrip (l : List Char) : List Char :=
  ((l.dropWhile isPySpace).reverse.dropWhile isPySpace).reverse

/-- Python `str.strip()` at the `String` level. -/
def pyStripStr (s : String) : String := ⟨pyStrip s.data⟩

/-- Python `s.endswith(t)`. -/
def pyEndsWith (s t : String) : Bool := t.data.isSuffixOf s.data

/-- Python `s.split(sep)` for a one-character separator: the list of
(possibly empty) segments between occurrences of `sep`. -/
def splitChar (sep : Char) : List Char → List (List Char)
  | [] => [[]]
  | c :: cs =>
    if c = sep then [] :: splitChar sep cs
    else
      match splitChar sep cs with
      | [] => [[c]]
      | p :: ps => (c :: p) :: ps

/-! ## Explanation engine (`explainer.py`) -/

/-- `KNOWN_KEYS` of `explainer.py`: the exact-match table, in source
declaration order.  All keys are distinct, so association-list lookup agrees
with the Python dictionary lookup. -/
def KNOWN_KEYS : List (String × String) := [
  ("DB_POOL_SIZE", "Controls how many database connections can exist at the same time."),
  ("DB_HOST", "The hostname or IP address of the database server."),
  ("DB_PORT", "The network port used to connect to the database."),
  ("DB_NAME", "The name of the database to connect to."),
  ("DB_USER", "The username for database authentication."),
  ("DB_PASSWORD", "The password for database authentication."),
  ("DATABASE_URL", "The full connection string for the database."),
  ("DATABASE_HOST", "The hostname or IP address of the database server."),
  ("DATABASE_PORT", "The network port used to connect to the database."),
  ("DATABASE_NAME", "The name of the database to connect to."),
  ("PORT", "The network port the application listens on."),
  ("HOST", "The hostname or IP address the server binds to."),
  ("BIND_ADDRESS", "The IP address the server binds to for incoming connections."),
  ("LISTEN_ADDRESS", "The address the server listens on for incoming connections."),
  ("DEBUG", "Enables or disables debug mode for development."),
  ("NODE_ENV", "The environment mode (development, production, test)."),
  ("ENVIRONMENT", "The current running environment (dev, staging, production)."),
  ("ENV", "The current running environment."),
  ("APP_ENV", "The application environment setting."),
  ("FLASK_ENV", "The Flask framework environment mode."),
  ("RAILS_ENV", "The Ruby on Rails environment mode."),
  ("DJANGO_DEBUG", "Enables or disables Django debug mode."),
  ("LOG_LEVEL", "Controls how much detail is written to logs (debug, info, warn, error)."),
  ("LOG_FILE", "The file path where logs are written."),
  ("LOG_FORMAT", "The format pattern for log messages."),
  ("LOGGING_LEVEL", "Controls the verbosity of application logging."),
  ("SECRET_KEY", "A secret value used for encryption and session security."),
  ("API_KEY", "A key used to authenticate API requests."),
  ("JWT_SECRET", "The secret key used to sign JSON Web Tokens."),
  ("AUTH_SECRET", "A secret value used for authentication purposes."),
  ("ENCRYPTION_KEY", "The key used for encrypting sensitive data."),
  ("PASSWORD_SALT", "A value added to passwords before hashing for security."),
  ("TIMEOUT", "The maximum time to wait before canceling an operation."),
  ("REQUEST_TIMEOUT", "The maximum time to wait for an HTTP request to complete."),
  ("CONNECTION_TIMEOUT", "The maximum time to wait when establishing a connection."),
  ("READ_TIMEOUT", "The maximum time to wait for data to be received."),
  ("MAX_CONNECTIONS", "The maximum number of simultaneous connections allowed."),
  ("MAX_RETRIES", "The maximum number of times to retry a failed operation."),
  ("RATE_LIMIT", "The maximum number of requests allowed in a time period."),
  ("CACHE_TTL", "How long cached data remains valid (in seconds)."),
  ("CACHE_ENABLED", "Enables or disables the caching system."),
  ("CACHE_SIZE", "The maximum size of the cache in memory."),
  ("REDIS_URL", "The connection URL for Redis cache server."),
  ("MEMCACHED_SERVERS", "The list of Memcached server addresses."),
  ("SMTP_HOST", "The hostname of the email server."),
  ("SMTP_PORT", "The port used to connect to the email server."),
  ("SMTP_USER", "The username for email server authentication."),
  ("SMTP_PASSWORD", "The password for email server authentication."),
  ("EMAIL_FROM", "The default sender email address."),
  ("MAIL_SERVER", "The hostname of the mail server."),
  ("API_URL", "The base URL for API endpoints."),
  ("BASE_URL", "The root URL of the application."),
  ("CALLBACK_URL", "The URL to redirect to after an operation completes."),
  ("WEBHOOK_URL", "The URL that receives webhook notifications."),
  ("FRONTEND_URL", "The URL of the frontend application."),
  ("BACKEND_URL", "The URL of the backend API."),
  ("FEATURE_FLAGS", "Toggles for enabling or disabling specific features."),
  ("ENABLE_FEATURE", "Enables or disables a specific feature."),
  ("EXPERIMENTAL", "Enables or disables experimental features."),
  ("TZ", "The timezone for the application."),
  ("TIMEZONE", "The timezone setting for date/time operations."),
  ("LOCALE", "The language and region setting."),
  ("LANG", "The language setting for the application."),
  ("VERSION", "The version number of the application."),
  ("APP_NAME", "The name of the application."),
  ("APP_VERSION", "The version number of the application.")]

/-- `KEY_SUFFIX_HINTS` of `explainer.py`, in source declaration order (the
order is load-bearing: `generate_fallback` returns on the first matching
suffix).  The one `\x7b\x7d` slot of each template is the `.format`
substitution point. -/
def KEY_SUFFIX_HINTS : List (String × String) := [
  ("_URL", "The URL endpoint for \x7b\x7d."),
  ("_URI", "The URI for \x7b\x7d."),
  ("_HOST", "The hostname or IP address for \x7b\x7d."),
  ("_PORT", "The network port for \x7b\x7d."),
  ("_KEY", "The authentication or API key for \x7b\x7d."),
  ("_SECRET", "A secret value for \x7b\x7d (keep this private)."),
  ("_TOKEN", "An access token for \x7b\x7d."),
  ("_PASSWORD", "The password for \x7b\x7d."),
  ("_USER", "The username for \x7b\x7d."),
  ("_USERNAME", "The username for \x7b\x7d."),
  ("_NAME", "The name of \x7b\x7d."),
  ("_PATH", "The file or directory path for \x7b\x7d."),
  ("_DIR", "The directory path for \x7b\x7d."),
  ("_FILE", "The file path for \x7b\x7d."),
  ("_SIZE", "The size setting for \x7b\x7d."),
  ("_LIMIT", "The maximum limit for \x7b\x7d."),
  ("_COUNT", "The number of items for \x7b\x7d."),
  ("_TIMEOUT", "The timeout duration (in seconds) for \x7b\x7d."),
  ("_TTL", "The time-to-live duration for \x7b\x7d."),
  ("_ENABLED", "Enables or disables \x7b\x7d."),
  ("_DISABLED", "Disables \x7b\x7d."),
  ("_MODE", "The operating mode for \x7b\x7d."),
  ("_LEVEL", "The level setting for \x7b\x7d."),
  ("_MAX", "The maximum value for \x7b\x7d."),
  ("_MIN", "The minimum value for \x7b\x7d."),
  ("_ID", "The unique identifier for \x7b\x7d."),
  ("_VERSION", "The version of \x7b\x7d.")]

/-- Python `template.format(arg)` for templates whose only format field is
the empty `\x7b\x7d` slot: each slot is replaced by `repl`, scanning left to
right. -/
def pyFormatData (repl : List Char) : List Char → List Char
  | [] => []
  | [c] => [c]
  | c :: d :: rest =>
    if c = '\x7b' ∧ d = '\x7d' then repl ++ pyFormatData repl rest
    else c :: pyFormatData repl (d :: rest)

/-- `template.format(arg)` at the `String` level. -/
def pyFormat (tmpl arg : String) : String := ⟨pyFormatData arg.data tmpl.data⟩

/-- `_make_readable` of `explainer.py`: lower-case, split on underscores,
drop empty segments, join with single spaces. -/
def _make_readable (key : String) : String :=
  ⟨List.intercalate [' ']
    (((splitChar '_' (pyLower key).data)).filter (fun w => !w.isEmpty))⟩

/-! ### `VALUE_PATTERNS` of `explainer.py`, one recognizer per named regex.

Each recognizer is the (executable) meaning of the corresponding anchored
Python regex under `re.match`, including `$` also matching just before one
trailing newline. -/

/-- Core of the regex `^-?\d+(\.\d+)?$`: optional minus sign, a nonempty
digit run, optionally a dot followed by a nonempty digit run, end of
input. -/
def numCore (l : List Char) : Bool :=
  let l' := match l with | '-' :: t => t | _ => l
  let ds := l'.takeWhile Char.isDigit
  let rest := l'.dropWhile Char.isDigit
  !ds.isEmpty &&
    (rest.isEmpty ||
      (match rest with
       | '.' :: t => !(t.takeWhile Char.isDigit).isEmpty && (t.dropWhile Char.isDigit).isEmpty
       | _ => false))

/-- `VALUE_PATTERNS['number']`, `^-?\d+(\.\d+)?$` under `re.match`. -/
def matchNumber (s : String) : Bool :=
  numCore s.data || (s.data.getLast? = some '\n' && numCore s.data.dropLast)

/-- Core of the regex `^[^@]+@[^@]+\.[^@]+$`: exactly one `@`, preceded by at
least one character, and followed by a `.` that has at least one character on
each side within the tail. -/
def emailCore (l : List Char) : Bool :=
  let pre := l.takeWhile (fun c => c != '@')
  match l.dropWhile (fun c => c != '@') with
  | '@' :: post =>
    !pre.isEmpty && post.all (fun c => c != '@') && ((post.drop 1).dropLast).contains '.'
  | _ => false

/-- `VALUE_PATTERNS['email']`, `^[^@]+@[^@]+\.[^@]+$` under `re.match`. -/
def matchEmail (s : String) : Bool :=
  emailCore s.data || (s.data.getLast? = some '\n' && emailCore s.data.dropLast)

/-- `VALUE_PATTERNS['url']`, `^https?://` under `re.match` with
`re.IGNORECASE`. -/
def matchUrl (s : String) : Bool :=
  "http://".data.isPrefixOf (pyLower s).data || "https://".data.isPrefixOf (pyLower s).data

/-- The alternatives of `VALUE_PATTERNS['boolean_true']`. -/
def boolTrueWords : List String := ["true", "yes", "on", "1", "enabled"]

/-- The alternatives of `VALUE_PATTERNS['boolean_false']`. -/
def boolFalseWords : List String := ["false", "no", "off", "0", "disabled"]

/-- `VALUE_PATTERNS['boolean_true']`, `^(true|yes|on|1|enabled)$` under
`re.match`. -/
def matchBoolTrue (s : String) : Bool :=
  boolTrueWords.contains s ||
    (s.data.getLast? = some '\n' && boolTrueWords.contains ⟨s.data.dropLast⟩)

/-- `VALUE_PATTERNS['boolean_false']`, `^(false|no|off|0|disabled)$` under
`re.match`. -/
def matchBoolFalse (s : String) : Bool :=
  boolFalseWords.contains s ||
    (s.data.getLast? = some '\n' && boolFalseWords.contains ⟨s.data.dropLast⟩)

/-- `VALUE_PATTERNS['path']`, `^(/|\.\.?/|[A-Za-z]:\\)` under `re.match`. -/
def matchPath (s : String) : Bool :=
  "/".data.isPrefixOf s.data || "./".data.isPrefixOf s.data || "../".data.isPrefixOf s.data ||
    (match s.data with
     | c :: ':' :: '\\' :: _ => c.isAlpha
     | _ => false)

/-- `_analyze_value` of `explainer.py`: try the value-shape recognizers in
source order, returning the hint of the first that matches.  The URL, email,
number and path patterns are matched against the raw value, the two boolean
patterns against `value.lower().strip()`, exactly as in the source. -/
def _analyze_value (value : String) : Option String :=
  let value_lower := pyStripStr (pyLower value)
  if matchUrl value then some "appears to be a URL"
  else if matchEmail value then some "appears to be an email address"
  else if matchBoolTrue value_lower then some "enables this feature"
  else if matchBoolFalse value_lower then some "disables this feature"
  else if matchNumber value then some "numeric value"
  else if matchPath value then some "appears to be a file path"
  else none

/-- Python `normalized_key[:-len(suffix)]`: the key with the matched suffix
removed. -/
def dropSuffixStr (k sfx : String) : String :=
  ⟨k.data.take (k.data.length - sfx.data.length)⟩

/-- `generate_fallback` of `explainer.py`: first matching suffix rule in
table order, else a value-shape hint, else the generic sentence. -/
def generate_fallback (key value : String) : String :=
  match KEY_SUFFIX_HINTS.find? (fun p => pyEndsWith (pyUpper key) p.1) with
  | some (sfx, tmpl) => pyFormat tmpl (_make_readable (dropSuffixStr (pyUpper key) sfx))
  | none =>
    match _analyze_value value with
    | some hint =>
      "Sets the " ++ pyLower (_make_readable (pyUpper key)) ++ " (" ++ hint ++ ")."
    | none =>
      "Configuration setting for " ++ pyLower (_make_readable (pyUpper key)) ++ "."

/-- `get_explanation` of `explainer.py`: exact-match lookup on the
upper-cased key, then on the dot-to-underscore form, then the generated
fallback. -/
def get_explanation (key value : String) : String :=
  match KNOWN_KEYS.lookup (pyUpper key) with
  | some text => text
  | none =>
    match KNOWN_KEYS.lookup (pyReplaceDot (pyUpper key)) with
    | some text => text
    | none => generate_fallback key value

example : get_explanation "PORT" "8080" = "The network port the application listens on." := by
  decide

example : get_explanation "RANDOM_THING" "42" = "Sets the random thing (numeric value)." := by
  decide

/-! ## Environment-style parser (`parse_env` of `parser.py`)

The parser is modelled over `List Char`; the input text is the `.data` of
the Python string. -/

/-- `[A-Za-z_]`, the allowed first character of a key in the line regex
`^([A-Za-z_][A-Za-z0-9_]*)\s*=\s*(.*)$`. -/
def isKeyStart (c : Char) : Bool := c.isAlpha || c = '_'

/-- `[A-Za-z0-9_]`, the allowed non-first characters of a key. -/
def isKeyChar (c : Char) : Bool := c.isAlphanum || c = '_'

/-- The meaning of `re.match(r'^([A-Za-z_][A-Za-z0-9_]*)\s*=\s*(.*)$', line)`:
the key group and the value group, or `none` when the line does not have the
`KEY=VALUE` shape.  Because the key characters, whitespace and `=` are
pairwise disjoint character classes, the regex's greedy matching is maximal
munch, rendered here with `takeWhile`/`dropWhile`. -/
def matchKV (l : List Char) : Option (List Char × List Char) :=
  match l with
  | [] => none
  | c :: cs =>
    if isKeyStart c then
      match (cs.dropWhile isKeyChar).dropWhile isPySpace with
      | '=' :: tail => some (c :: cs.takeWhile isKeyChar, tail.dropWhile isPySpace)
      | _ => none
    else none

/-- `_strip_quotes` of `parser.py`: strip surrounding whitespace, then one
layer of matching surrounding double or single quotes. -/
def _strip_quotes (v : List Char) : List Char :=
  let w := pyStrip v
  if w.head? = some '"' ∧ w.getLast? = some '"' ∧ 2 ≤ w.length then
    (w.drop 1).dropLast
  else if w.head? = some '\'' ∧ w.getLast? = some '\'' ∧ 2 ≤ w.length then
    (w.drop 1).dropLast
  else w

/-- The inline-comment marker, the Python substring `" #"`. -/
def spaceHash : List Char := [' ', '#']

/-- Python `needle in l` for a substring `needle`. -/
def hasSub (needle : List Char) : List Char → Bool
  | [] => needle.isEmpty
  | c :: cs => needle.isPrefixOf (c :: cs) || hasSub needle cs

/-- The first segment of Python `l.split(needle)`: everything before the
first occurrence of `needle`, or all of `l` when there is none. -/
def takeBeforeSub (needle : List Char) : List Char → List Char
  | [] => []
  | c :: cs => if needle.isPrefixOf (c :: cs) then [] else c :: takeBeforeSub needle cs

/-- Python `value.startswith(('http://', 'https://'))`. -/
def httpPre (v : List Char) : Bool :=
  "http://".data.isPrefixOf v || "https://".data.isPrefixOf v

/-- The inline-comment removal step of `parse_env`: if the (already
quote-stripped) value contains `" #"` and does not start with `http://` or
`https://`, keep `value.split(' #')[0].strip()`; otherwise keep the value. -/
def stripInline (v : List Char) : List Char :=
  if hasSub spaceHash v = true ∧ httpPre v = false then
    pyStrip (takeBeforeSub spaceHash v)
  else v

/-- The per-line body of `parse_env`'s loop: strip the line, skip it when
empty or a `#` comment, otherwise match the `KEY=VALUE` regex and process
the value through `_strip_quotes` and the inline-comment removal. -/
def parseEnvLine (l : List Char) : Option (List Char × List Char) :=
  let line := pyStrip l
  if line = [] then none
  else if line.head? = some '#' then none
  else
    match matchKV line with
    | some (k, v) => some (k, stripInline (_strip_quotes v))
    | none => none

/-- `parse_env` of `parser.py`: split the content on newlines, process each
line in order, and return the collected pairs with no failure reason (this
parser never fails). -/
def parse_env (content : List Char) :
    List (List Char × List Char) × Option String :=
  ((splitChar '\n' content).filterMap parseEnvLine, none)

example :
    parse_env "PORT=8080\nDEBUG=true".data = ([("PORT".data, "8080".data), ("DEBUG".data, "true".data)], none) := by
  decide

example :
    parse_env "A=hello #comment\n# note\n\nB=\"http://x/a #frag\"".data =
      ([("A".data, "hello".data), ("B".data, "http://x/a #frag".data)], none) := by
  decide

/-! ## Structured values and flattening (`parser.py`) -/

/-- The decoded documents of the structured formats, as Python's `json.loads`
or `yaml.safe_load` deliver them: strings, integers, booleans, `None`,
lists, and string-keyed mappings in declaration order. -/
inductive PyVal where
  | str (s : String)
  | int (n : Int)
  | bool (b : Bool)
  | null
  | arr (elems : List PyVal)
  | obj (fields : List (String × PyVal))

mutual

/-- Python `repr` of a decoded value (the rendering `str` uses for the
elements of a list): strings get surrounding single quotes, `True`/`False`/
`None` their Python spellings, lists bracketed comma-space-separated
element reprs, mappings braced `'key': value` entries. -/
def pyRepr : PyVal → String
  | .str s => "'" ++ s ++ "'"
  | .int n => toString n
  | .bool b => if b then "True" else "False"
  | .null => "None"
  | .arr elems => "[" ++ String.intercalate ", " (pyReprList elems) ++ "]"
  | .obj fields => "\x7b" ++ String.intercalate ", " (pyReprFields fields) ++ "\x7d"

/-- `repr` of each list element. -/
def pyReprList : List PyVal → List String
  | [] => []
  | v :: vs => pyRepr v :: pyReprList vs

/-- `repr` of each mapping entry. -/
def pyReprFields : List (String × PyVal) → List String
  | [] => []
  | (k, v) :: fs => ("'" ++ k ++ "': " ++ pyRepr v) :: pyReprFields fs

end

/-- Python `str` of a decoded value, the stringification `_flatten_dict`
applies to every non-mapping value: the string itself for strings, `repr`
for everything else. -/
def pyStr : PyVal → String
  | .str s => s
  | v => pyRepr v

/-- `_flatten_dict` of `parser.py`: walk the fields in order; compose the
dot-joined key; recurse into nested mappings; stringify lists and all other
values with Python `str`. -/
def _flatten_dict (fields : List (String × PyVal)) (pfx : String) :
    List (String × String) :=
  match fields with
  | [] => []
  | (key, value) :: rest =>
    let full_key := if pfx = "" then key else pfx ++ "." ++ key
    (match value with
     | .obj inner => _flatten_dict inner full_key
     | .arr elems => [(full_key, pyStr (.arr elems))]
     | other => [(full_key, pyStr other)]) ++ _flatten_dict rest pfx

/-- `parse_json` of `parser.py`, applied to the outcome of `json.loads`
(the stdlib decoder is external to the repository, so its result is the
input here): decoder errors become `Invalid JSON` failures, a non-mapping
root is rejected, a mapping root is flattened. -/
def parse_json (decoded : Except String PyVal) :
    List (String × String) × Option String :=
  match decoded with
  | .error e => ([], some ("Invalid JSON: " ++ e))
  | .ok data =>
    match data with
    | .obj fields => (_flatten_dict fields "", none)
    | _ => ([], some "JSON file must contain an object at the root level")

/-- `parse_yaml` of `parser.py`, applied to the availability flag of the
optional PyYAML dependency and the outcome of `yaml.safe_load` (`.ok none`
is Python `None`, the decoder's result for an empty document). -/
def parse_yaml (yamlAvailable : Bool) (decoded : Except String (Option PyVal)) :
    List (String × String) × Option String :=
  if !yamlAvailable then
    ([], some "YAML support requires PyYAML. Install with: pip install PyYAML")
  else
    match decoded with
    | .error e => ([], some ("Invalid YAML: " ++ e))
    | .ok none => ([], none)
    | .ok (some data) =>
      match data with
      | .obj fields => (_flatten_dict fields "", none)
      | _ => ([], some "YAML file must contain a mapping at the root level")

/-- `parse_file` of `parser.py`: dispatch on the file type, with the two
stdlib decoders passed in as functions of the raw content. -/
def parse_file (jsonLoads : String → Except String PyVal)
    (yamlAvailable : Bool) (yamlLoad : String → Except String (Option PyVal))
    (file_type content : String) :
    List (String × String) × Option String :=
  if file_type = "env" then
    let r := parse_env content.data
    (r.1.map (fun p => (⟨p.1⟩, ⟨p.2⟩)), r.2)
  else if file_type = "json" then parse_json (jsonLoads content)
  else if file_type = "yaml" then parse_yaml yamlAvailable (yamlLoad content)
  else ([], some ("Unsupported file type: " ++ file_type))

example :
    parse_json (.ok (.obj [("db", .obj [("host", .str "localhost"), ("port", .int 5432)])])) =
      ([("db.host", "localhost"), ("db.port", "5432")], none) := by
  simp [parse_json, _flatten_dict, pyStr, pyRepr]
  decide

/-! ## Claim theorems -/

/-- C1: Exact-match lookup takes precedence over every fallback mechanism:
whenever the upper-cased key is present in `KNOWN_KEYS`, `get_explanation`
returns that table's fixed text verbatim for every value; in particular
`get_explanation "PORT" "8080"` is the known-key text for `PORT` and not the
generated fallback. -/
theorem exact_match_precedence :
    (∀ key value text, KNOWN_KEYS.lookup (pyUpper key) = some text →
      get_explanation key value = text) ∧
    get_explanation "PORT" "8080" = "The network port the application listens on." ∧
    get_explanation "PORT" "8080" ≠ generate_fallback "PORT" "8080" := by
  refine ⟨?_, by decide, by decide⟩
  intro key value text h
  unfold get_explanation
  rw [h]

theorem exact_match_precedence_witness :
    KNOWN_KEYS.lookup (pyUpper "PORT") = some "The network port the application listens on." ∧
    get_explanation "PORT" "8080" = "The network port the application listens on." :=
  ⟨by decide, exact_match_precedence.1 "PORT" "8080" _ (by decide)⟩

/-- C4: Dot-to-underscore bridging: `get_explanation "database.host" v`
returns the same explanation as `get_explanation "DATABASE_HOST" v` for
every value `v`; in general, when the plain upper-case lookup fails and the
dot-to-underscore form is in the table, its text is returned. -/
theorem dot_bridge :
    (∀ value, get_explanation "database.host" value = get_explanation "DATABASE_HOST" value) ∧
    (∀ key value text, KNOWN_KEYS.lookup (pyUpper key) = none →
      KNOWN_KEYS.lookup (pyReplaceDot (pyUpper key)) = some text →
      get_explanation key value = text) := by
  constructor
  · intro value; rfl
  · intro key value text h1 h2
    unfold get_explanation
    rw [h1, h2]

theorem dot_bridge_witness :
    KNOWN_KEYS.lookup (pyUpper "database.host") = none ∧
    KNOWN_KEYS.lookup (pyReplaceDot (pyUpper "database.host")) =
      some "The hostname or IP address of the database server." ∧
    get_explanation "database.host" "x" = "The hostname or IP address of the database server." :=
  ⟨by decide, by decide, dot_bridge.2 "database.host" "x" _ (by decide) (by decide)⟩

/-- C7: Zero-pair well-formed input yields success, not failure: empty text
for the env format, the empty YAML document (which `yaml.safe_load` decodes
to `None`, here the decoder outcome `.ok none`), and the empty root mapping
(`json.loads "\x7b\x7d"` decodes to the empty mapping) all return an empty
pair list with no failure reason. -/
theorem zero_pair_success :
    parse_env [] = ([], none) ∧
    parse_yaml true (.ok none) = ([], none) ∧
    parse_json (.ok (.obj [])) = ([], none) := by
  refine ⟨by decide, by decide, ?_⟩
  simp [parse_json, _flatten_dict]

/-- C8: ParseResult exclusivity: for every file type, every content and
every behaviour of the external decoders, whenever `parse_file` returns a
failure reason the accompanying pair list is empty. -/
theorem parse_result_exclusive (jsonLoads : String → Except String PyVal)
    (yamlAvailable : Bool) (yamlLoad : String → Except String (Option PyVal))
    (file_type content : String)
    (h : (parse_file jsonLoads yamlAvailable yamlLoad file_type content).2.isSome = true) :
    (parse_file jsonLoads yamlAvailable yamlLoad file_type content).1 = [] := by
  by_cases h1 : file_type = "env"
  · subst h1; simp [parse_file, parse_env] at h
  · by_cases h2 : file_type = "json"
    · subst h2
      cases hj : jsonLoads content with
      | error e => simp [parse_file, parse_json, hj]
      | ok data => cases data <;> simp_all [parse_file, parse_json, hj]
    · by_cases h3 : file_type = "yaml"
      · subst h3
        cases yamlAvailable with
        | false => simp [parse_file, parse_yaml]
        | true =>
          cases hy : yamlLoad content with
          | error e => simp [parse_file, parse_yaml, hy]
          | ok data =>
            cases data with
            | none => simp_all [parse_file, parse_yaml, hy]
            | some v => cases v <;> simp_all [parse_file, parse_yaml, hy]
      · simp [parse_file, h1, h2, h3]

theorem parse_result_exclusive_witness :
    ((parse_file (fun _ => .error "boom") true (fun _ => .ok none) "txt" "x").2.isSome = true) ∧
    (parse_file (fun _ => .error "boom") true (fun _ => .ok none) "txt" "x").1 = [] :=
  ⟨by decide, parse_result_exclusive _ _ _ _ _ (by decide)⟩

/-- C2 (evaluation at the failing input): `_flatten_dict` stringifies
non-string scalars with Python `str`, so the docstring example
`parse_json('\x7b"port": 8080, "debug": true\x7d')` actually yields the
value `"True"`, not the native JSON literal `"true"` that the claim and the
function's own docstring state; likewise `null` becomes `"None"` and a list
of strings is rendered with Python `repr` quotes, not JSON notation. -/
theorem flatten_str_not_native :
    parse_json (.ok (.obj [("port", .int 8080), ("debug", .bool true)])) =
      ([("port", "8080"), ("debug", "True")], none) ∧
    pyStr (.bool true) = "True" ∧
    pyStr .null = "None" ∧
    pyStr (.arr [.str "a", .int 1]) = "['a', 1]" ∧
    "True" ≠ "true" := by
  refine ⟨?_, ?_, ?_, ?_, by decide⟩
  · simp [parse_json, _flatten_dict, pyStr, pyRepr]; decide
  · simp [pyStr, pyRepr]
  · simp [pyStr, pyRepr]
  · simp [pyStr, pyRepr, pyReprList]; decide

/-- C3: Value-shape analysis tests the patterns in the fixed order URL,
email, boolean-true, boolean-false, numeric, filesystem-path, the first
match determining the hint; and the three spec examples for a key matching
no exact entry and no suffix rule. -/
theorem value_shape_order :
    (∀ v, matchUrl v = true → _analyze_value v = some "appears to be a URL") ∧
    (∀ v, matchUrl v = false → matchEmail v = true →
      _analyze_value v = some "appears to be an email address") ∧
    (∀ v, matchUrl v = false → matchEmail v = false →
      matchBoolTrue (pyStripStr (pyLower v)) = true →
      _analyze_value v = some "enables this feature") ∧
    (∀ v, matchUrl v = false → matchEmail v = false →
      matchBoolTrue (pyStripStr (pyLower v)) = false →
      matchBoolFalse (pyStripStr (pyLower v)) = true →
      _analyze_value v = some "disables this feature") ∧
    (∀ v, matchUrl v = false → matchEmail v = false →
      matchBoolTrue (pyStripStr (pyLower v)) = false →
      matchBoolFalse (pyStripStr (pyLower v)) = false →
      matchNumber v = true →
      _analyze_value v = some "numeric value") ∧
    (∀ v, matchUrl v = false → matchEmail v = false →
      matchBoolTrue (pyStripStr (pyLower v)) = false →
      matchBoolFalse (pyStripStr (pyLower v)) = false →
      matchNumber v = false → matchPath v = true →
      _analyze_value v = some "appears to be a file path") ∧
    get_explanation "RANDOM_THING" "https://x.com" =
      "Sets the random thing (appears to be a URL)." ∧
    get_explanation "RANDOM_THING" "42" = "Sets the random thing (numeric value)." ∧
    get_explanation "RANDOM_THING" "true" = "Sets the random thing (enables this feature)." := by
  refine ⟨?_, ?_, ?_, ?_, ?_, ?_, by decide, by decide, by decide⟩
  all_goals intro v
  all_goals intros
  all_goals simp_all [_analyze_value]

theorem value_shape_order_witness :
    matchUrl "https://x.com" = true ∧
    _analyze_value "https://x.com" = some "appears to be a URL" :=
  ⟨by decide, value_shape_order.1 "https://x.com" (by decide)⟩

/-! ### Substring helper lemmas for the inline-comment step -/

/-- `takeBeforeSub` yields a prefix of its input. -/
theorem takeBeforeSub_leading (needle : List Char) :
    ∀ l : List Char, takeBeforeSub needle l <+: l := by
  intro l
  induction l with
  | nil => simp [takeBeforeSub]
  | cons c cs ih =>
    by_cases h : needle.isPrefixOf (c :: cs)
    · simp [takeBeforeSub, h]
    · simpa [takeBeforeSub, h] using ih

/-- When the needle occurs, the input splits as the part before the first
occurrence, the needle, and a remainder. -/
theorem takeBeforeSub_decomp (needle : List Char) :
    ∀ l : List Char, hasSub needle l = true →
      ∃ rest, l = takeBeforeSub needle l ++ needle ++ rest := by
  intro l
  induction l with
  | nil =>
    intro h
    simp [hasSub, List.isEmpty_iff] at h
    exact ⟨[], by simp [takeBeforeSub, h]⟩
  | cons c cs ih =>
    intro h
    by_cases hp : needle.isPrefixOf (c :: cs)
    · obtain ⟨t, ht⟩ := (List.isPrefixOf_iff_prefix.mp hp)
      exact ⟨t, by simp [takeBeforeSub, hp, ht.symm]⟩
    · simp only [hasSub, hp, Bool.false_or] at h
      obtain ⟨rest, hrest⟩ := ih h
      refine ⟨rest, ?_⟩
      simp only [takeBeforeSub, hp, if_false, ite_false, List.append_assoc, List.cons_append,
        List.cons.injEq, true_and]
      simpa [List.append_assoc] using hrest

/-- The part before the first occurrence of a nonempty needle contains no
occurrence of the needle. -/
theorem hasSub_takeBeforeSub (needle : List Char) (hne : needle ≠ []) :
    ∀ l : List Char, hasSub needle (takeBeforeSub needle l) = false := by
  intro l
  induction l with
  | nil => simp [takeBeforeSub, hasSub, List.isEmpty_iff, hne]
  | cons c cs ih =>
    by_cases hp : needle.isPrefixOf (c :: cs)
    · simp [takeBeforeSub, hp, hasSub, List.isEmpty_iff, hne]
    · simp only [takeBeforeSub, hp, if_false, ite_false]
      simp only [hasSub, ih, Bool.or_false]
      by_contra hcon
      simp only [Bool.not_eq_false] at hcon
      apply hp
      have h1 : needle <+: c :: takeBeforeSub needle cs :=
        List.isPrefixOf_iff_prefix.mp hcon
      have h2 : c :: takeBeforeSub needle cs <+: c :: cs := by
        exact (List.prefix_cons_inj c).mpr (takeBeforeSub_leading needle cs)
      exact List.isPrefixOf_iff_prefix.mpr (h1.trans h2)

/-- The inline-comment rule exactly as the specification words it, for
comparison with the code's `stripInline`: truncate at the first `" #"` and
trim trailing whitespace only (the code's `.strip()` also removes leading
whitespace). -/
def specStripInline (v : List Char) : List Char :=
  if hasSub spaceHash v = true ∧ httpPre v = false then
    ((takeBeforeSub spaceHash v).reverse.dropWhile isPySpace).reverse
  else v

/-- C5 (counterexample): on the line `X=" x # c"` the quote-stripped value
is `" x # c"`; the specification's rule (truncate at `" #"`, trim trailing
whitespace) predicts the value `" x"`, but the code's
`value.split(' #')[0].strip()` also strips the leading space and yields
`"x"`, so the claim fails as stated. -/
theorem inline_strip_trailing_only_false :
    _strip_quotes "\"\x20x # c\"".data = " x # c".data ∧
    hasSub spaceHash " x # c".data = true ∧
    httpPre " x # c".data = false ∧
    specStripInline " x # c".data = " x".data ∧
    stripInline " x # c".data = "x".data ∧
    (parse_env "X=\"\x20x # c\"".data).1 = [("X".data, "x".data)] ∧
    " x".data ≠ "x".data := by
  refine ⟨by decide, by decide, by decide, by decide, by decide, by decide, by decide⟩

/-- C5 (amended): inline-comment stripping is applied to the already
quote-stripped value: for every matched line, if that value contains `" #"`
and does not start with `http://` or `https://`, it is truncated at the
first occurrence of `" #"` and surrounding (leading and trailing) whitespace
is stripped; otherwise it is left unchanged. -/
theorem inline_strip_spec :
    (∀ l k v, matchKV (pyStrip l) = some (k, v) → pyStrip l ≠ [] →
      (pyStrip l).head? ≠ some '#' →
      parseEnvLine l = some (k, stripInline (_strip_quotes v))) ∧
    (∀ v, hasSub spaceHash v = true → httpPre v = false →
      ∃ rest, v = takeBeforeSub spaceHash v ++ spaceHash ++ rest ∧
        hasSub spaceHash (takeBeforeSub spaceHash v) = false ∧
        stripInline v = pyStrip (takeBeforeSub spaceHash v)) ∧
    (∀ v, hasSub spaceHash v = false ∨ httpPre v = true → stripInline v = v) := by
  refine ⟨?_, ?_, ?_⟩
  · intro l k v hm hne hhd
    simp only [parseEnvLine]
    rw [if_neg hne, if_neg hhd, hm]
  · intro v h1 h2
    obtain ⟨rest, hrest⟩ := takeBeforeSub_decomp spaceHash v h1
    exact ⟨rest, hrest, hasSub_takeBeforeSub spaceHash (by decide) v,
      by simp [stripInline, h1, h2]⟩
  · intro v h
    rcases h with h | h
    · simp [stripInline, h]
    · simp [stripInline, h]

theorem inline_strip_spec_witness :
    matchKV (pyStrip "A=hello #comment".data) = some ("A".data, "hello #comment".data) ∧
    parseEnvLine "A=hello #comment".data =
      some ("A".data, stripInline (_strip_quotes "hello #comment".data)) ∧
    hasSub spaceHash "hello #comment".data = true ∧
    httpPre "hello #comment".data = false ∧
    stripInline "hello #comment".data =
      pyStrip (takeBeforeSub spaceHash "hello #comment".data) := by
  refine ⟨by decide, inline_strip_spec.1 _ _ _ (by decide) (by decide) (by decide),
    by decide, by decide, ?_⟩
  exact (inline_strip_spec.2.1 "hello #comment".data (by decide) (by decide)).choose_spec.2.2

/-! ### Character-level facts about the ASCII case maps -/

/-- Upper-casing never produces an underscore from another character. -/
theorem pyCharUpper_underscore (c : Char) (h : pyCharUpper c = '_') : c = '_' := by
  unfold pyCharUpper at h
  split at h <;> first | exact h | exact absurd h (by decide)

/-- Lower-casing never produces an underscore from another character. -/
theorem pyCharLower_underscore (c : Char) (h : pyCharLower c = '_') : c = '_' := by
  unfold pyCharLower at h
  split at h <;> first | exact h | exact absurd h (by decide)

/-- Splitting on a separator that does not occur returns the single whole
segment. -/
theorem splitChar_no_sep (sep : Char) :
    ∀ l : List Char, sep ∉ l → splitChar sep l = [l] := by
  intro l
  induction l with
  | nil => intro _; rfl
  | cons c cs ih =>
    intro h
    have hc : ¬(c = sep) := by
      intro e
      exact h (by simp [e])
    have hcs : sep ∉ cs := fun m => h (List.mem_cons_of_mem _ m)
    simp [splitChar, hc, ih hcs]

/-- C10 (counterexample): the key `a.b_url` contains a dot and its
underscore form is not in the exact-match table, yet the suffix rule `_URL`
matches the upper-cased key with its dot intact, so the result comes from
the suffix branch, not from the value-shape or generic branch. -/
theorem fallback_dot_suffix_match :
    ('.' ∈ "a.b_url".data) ∧
    KNOWN_KEYS.lookup (pyUpper "a.b_url") = none ∧
    KNOWN_KEYS.lookup (pyReplaceDot (pyUpper "a.b_url")) = none ∧
    KEY_SUFFIX_HINTS.find? (fun p => pyEndsWith (pyUpper "a.b_url") p.1) =
      some ("_URL", "The URL endpoint for \x7b\x7d.") ∧
    get_explanation "a.b_url" "x" = "The URL endpoint for a.b." := by
  refine ⟨by decide, by decide, by decide, by decide, by decide⟩

/-- C10 (amended): dot-to-underscore replacement applies only to the
exact-match lookup, never to the fallback path: `generate_fallback` matches
suffix rules against the upper-cased key with its dots intact, so for every
key containing a `.` but no `_`, whose two exact-match lookups fail, no
suffix rule (each of which starts with `_`) can match, and the result comes
from the value-shape or generic branch with the dots preserved in the
readable key text. -/
theorem fallback_dot_preserved (key value : String)
    (hdot : '.' ∈ key.data) (hus : '_' ∉ key.data)
    (h1 : KNOWN_KEYS.lookup (pyUpper key) = none)
    (h2 : KNOWN_KEYS.lookup (pyReplaceDot (pyUpper key)) = none) :
    KEY_SUFFIX_HINTS.find? (fun p => pyEndsWith (pyUpper key) p.1) = none ∧
    _make_readable (pyUpper key) = pyLower (pyUpper key) ∧
    '.' ∈ (pyLower (pyUpper key)).data ∧
    get_explanation key value =
      (match _analyze_value value with
       | some hint =>
         "Sets the " ++ pyLower (_make_readable (pyUpper key)) ++ " (" ++ hint ++ ")."
       | none =>
         "Configuration setting for " ++ pyLower (_make_readable (pyUpper key)) ++ ".") := by
  have hu_us : '_' ∉ (pyUpper key).data := by
    intro hmem
    obtain ⟨c, hcmem, hce⟩ := List.mem_map.mp hmem
    exact hus (by rwa [pyCharUpper_underscore c hce] at hcmem)
  have hlow_us : '_' ∉ (pyLower (pyUpper key)).data := by
    intro hmem
    obtain ⟨c, hcmem, hce⟩ := List.mem_map.mp hmem
    exact hu_us (by rwa [pyCharLower_underscore c hce] at hcmem)
  have hdotlow : '.' ∈ (pyLower (pyUpper key)).data :=
    List.mem_map.mpr ⟨'.', List.mem_map.mpr ⟨'.', hdot, by decide⟩, by decide⟩
  have hne : (pyLower (pyUpper key)).data ≠ [] := by
    intro hnil
    rw [hnil] at hdotlow
    exact absurd hdotlow (List.not_mem_nil '.')
  have hfind : KEY_SUFFIX_HINTS.find? (fun p => pyEndsWith (pyUpper key) p.1) = none := by
    rw [List.find?_eq_none]
    intro p hp
    simp only [Bool.not_eq_true]
    by_contra hcon
    simp only [Bool.not_eq_false, pyEndsWith] at hcon
    have hsuffix : p.1.data <:+ (pyUpper key).data := List.isSuffixOf_iff_suffix.mp hcon
    have hunder : '_' ∈ p.1.data := by
      have hall : ∀ q ∈ KEY_SUFFIX_HINTS, '_' ∈ q.1.data := by decide
      exact hall p hp
    exact hu_us (hsuffix.subset hunder)
  have hread : _make_readable (pyUpper key) = pyLower (pyUpper key) := by
    unfold _make_readable
    rw [splitChar_no_sep '_' _ hlow_us]
    have hemp : (pyLower (pyUpper key)).data.isEmpty = false := by
      simpa [List.isEmpty_iff] using hne
    simp [hemp, List.intercalate]
  refine ⟨hfind, hread, hdotlow, ?_⟩
  unfold get_explanation
  rw [h1, h2]
  unfold generate_fallback
  rw [hfind]

theorem fallback_dot_preserved_witness :
    ('.' ∈ "server.timeout".data) ∧ ('_' ∉ "server.timeout".data) ∧
    KNOWN_KEYS.lookup (pyUpper "server.timeout") = none ∧
    KNOWN_KEYS.lookup (pyReplaceDot (pyUpper "server.timeout")) = none ∧
    KEY_SUFFIX_HINTS.find? (fun p => pyEndsWith (pyUpper "server.timeout") p.1) = none ∧
    get_explanation "server.timeout" "30" = "Sets the server.timeout (numeric value)." := by
  obtain ⟨hf, _, _, he⟩ :=
    fallback_dot_preserved "server.timeout" "30" (by decide) (by decide) (by decide) (by decide)
  refine ⟨by decide, by decide, by decide, by decide, hf, ?_⟩
  rw [he]
  decide

/-! ### Helpers for totality of the explanation engine -/

/-- A string whose data is nonempty is not the empty string. -/
theorem ne_empty_of_data_ne_nil (s : String) (h : s.data ≠ []) : s ≠ "" := by
  intro e
  subst e
  exact h rfl

/-- Appending on the right preserves nonemptiness of the data. -/
theorem data_append_ne_nil (a b : String) (ha : a.data ≠ []) : (a ++ b).data ≠ [] := by
  rw [String.data_append]
  intro h
  exact ha (List.append_eq_nil.mp h).1

/-- A successful association-list lookup comes from a member of the list. -/
theorem lookup_mem {l : List (String × String)} {k v : String}
    (h : l.lookup k = some v) : (k, v) ∈ l := by
  obtain ⟨l₁, l₂, rfl, -⟩ := List.lookup_eq_some_iff.mp h
  exact List.mem_append_right _ (List.mem_cons_self _ _)

/-- Every explanation text in the exact-match table is nonempty. -/
theorem known_keys_text_ne_empty : ∀ p ∈ KNOWN_KEYS, p.2 ≠ "" := by decide

/-- Formatting a template that starts with an ordinary character keeps that
character in front. -/
theorem pyFormatData_cons_ne (repl : List Char) (c : Char) (rest : List Char)
    (hc : c ≠ '\x7b') :
    pyFormatData repl (c :: rest) = c :: pyFormatData repl rest := by
  cases rest with
  | nil => rfl
  | cons d rest' => simp [pyFormatData, hc]

/-- Formatting a template that starts with an ordinary character yields a
nonempty string. -/
theorem pyFormat_ne_empty (tmpl arg : String) (c : Char) (rest : List Char)
    (hdata : tmpl.data = c :: rest) (hc : c ≠ '\x7b') : pyFormat tmpl arg ≠ "" := by
  unfold pyFormat
  rw [hdata, pyFormatData_cons_ne _ _ _ hc]
  intro h
  rw [String.ext_iff] at h
  exact List.cons_ne_nil _ _ h

/-- C9: The explanation engine is total: for every key and value,
`get_explanation` returns a (nonempty) explanation string, and every input
falls through one of the five paths: exact match, dot-bridged exact match,
suffix inference, value-shape inference, or the generic sentence. -/
theorem explanation_total (key value : String) :
    ((∃ text, KNOWN_KEYS.lookup (pyUpper key) = some text ∧
        get_explanation key value = text) ∨
     (∃ text, KNOWN_KEYS.lookup (pyReplaceDot (pyUpper key)) = some text ∧
        get_explanation key value = text) ∨
     (∃ sfx tmpl, KEY_SUFFIX_HINTS.find? (fun p => pyEndsWith (pyUpper key) p.1) =
          some (sfx, tmpl) ∧
        get_explanation key value =
          pyFormat tmpl (_make_readable (dropSuffixStr (pyUpper key) sfx))) ∨
     (∃ hint, _analyze_value value = some hint ∧
        get_explanation key value =
          "Sets the " ++ pyLower (_make_readable (pyUpper key)) ++ " (" ++ hint ++ ").") ∨
     get_explanation key value =
       "Configuration setting for " ++ pyLower (_make_readable (pyUpper key)) ++ ".") ∧
    get_explanation key value ≠ "" := by
  cases hl1 : KNOWN_KEYS.lookup (pyUpper key) with
  | some t =>
    have hg : get_explanation key value = t := by
      unfold get_explanation
      rw [hl1]
    refine ⟨Or.inl ⟨t, rfl, hg⟩, ?_⟩
    rw [hg]
    exact known_keys_text_ne_empty _ (lookup_mem hl1)
  | none =>
    cases hl2 : KNOWN_KEYS.lookup (pyReplaceDot (pyUpper key)) with
    | some t =>
      have hg : get_explanation key value = t := by
        unfold get_explanation
        rw [hl1, hl2]
      refine ⟨Or.inr (Or.inl ⟨t, rfl, hg⟩), ?_⟩
      rw [hg]
      exact known_keys_text_ne_empty _ (lookup_mem hl2)
    | none =>
      have hg : get_explanation key value = generate_fallback key value := by
        unfold get_explanation
        rw [hl1, hl2]
      cases hf : KEY_SUFFIX_HINTS.find? (fun p => pyEndsWith (pyUpper key) p.1) with
      | some p =>
        obtain ⟨sfx, tmpl⟩ := p
        have hg2 : get_explanation key value =
            pyFormat tmpl (_make_readable (dropSuffixStr (pyUpper key) sfx)) := by
          rw [hg]
          unfold generate_fallback
          rw [hf]
        refine ⟨Or.inr (Or.inr (Or.inl ⟨sfx, tmpl, rfl, hg2⟩)), ?_⟩
        rw [hg2]
        have hmem := List.mem_of_find?_eq_some hf
        have hhead : ∀ q ∈ KEY_SUFFIX_HINTS,
            q.2.data.head? ≠ some '\x7b' ∧ q.2.data ≠ [] := by decide
        obtain ⟨hh, hne⟩ := hhead _ hmem
        cases hd : tmpl.data with
        | nil => exact absurd hd hne
        | cons c rest =>
          refine pyFormat_ne_empty tmpl _ c rest hd ?_
          intro e
          exact hh (by rw [hd, e]; rfl)
      | none =>
        cases ha : _analyze_value value with
        | some hint =>
          have hg2 : get_explanation key value =
              "Sets the " ++ pyLower (_make_readable (pyUpper key)) ++
                " (" ++ hint ++ ")." := by
            rw [hg]
            unfold generate_fallback
            rw [hf, ha]
          refine ⟨Or.inr (Or.inr (Or.inr (Or.inl ⟨hint, rfl, hg2⟩))), ?_⟩
          rw [hg2]
          refine ne_empty_of_data_ne_nil _ ?_
          refine data_append_ne_nil _ _ ?_
          refine data_append_ne_nil _ _ ?_
          refine data_append_ne_nil _ _ ?_
          exact data_append_ne_nil _ _ (by decide)
        | none =>
          have hg2 : get_explanation key value =
              "Configuration setting for " ++ pyLower (_make_readable (pyUpper key)) ++ "." := by
            rw [hg]
            unfold generate_fallback
            rw [hf, ha]
          refine ⟨Or.inr (Or.inr (Or.inr (Or.inr hg2))), ?_⟩
          rw [hg2]
          refine ne_empty_of_data_ne_nil _ ?_
          exact data_append_ne_nil _ _ (data_append_ne_nil _ _ (by decide))

/-! ## Rendering pairs back to env-style text (for the idempotence claim)

The spec's round-trip property renders each extracted pair as a
`KEY=VALUE` line, re-quoting the value when it contains characters that the
parser treats specially (surrounding quote pairs, leading or trailing
whitespace, or an inline-comment marker outside a URL), and joins the lines
with newlines. -/

/-- The value both starts and ends with the quote character `q` (with length
at least two), the shape `_strip_quotes` would strip. -/
def quotePairB (q : Char) (v : List Char) : Bool :=
  (v.head? == some q) && (v.getLast? == some q) && decide (2 ≤ v.length)

/-- The value needs re-quoting to survive a reparse unchanged. -/
def needsQuote (v : List Char) : Bool :=
  quotePairB '"' v || quotePairB '\'' v ||
  (match v.head? with | some c => isPySpace c | none => false) ||
  (match v.getLast? with | some c => isPySpace c | none => false) ||
  (hasSub spaceHash v && !httpPre v)

/-- One rendered `KEY=VALUE` line, the value double-quoted when needed. -/
def renderPair (p : List Char × List Char) : List Char :=
  p.1 ++ '=' :: (if needsQuote p.2 then '"' :: (p.2 ++ ['"']) else p.2)

/-- Python `'\n'.join(lines)`. -/
def joinLines : List (List Char) → List Char
  | [] => []
  | [l] => l
  | l :: ls => l ++ '\n' :: joinLines ls

/-- The rendered text of a pair list. -/
def renderPairs (ps : List (List Char × List Char)) : List Char :=
  joinLines (ps.map renderPair)

/-- A key the line regex can produce: a key-start character followed by
key characters. -/
def ValidKey (k : List Char) : Prop :=
  match k with
  | [] => False
  | c :: cs => isKeyStart c = true ∧ ∀ x ∈ cs, isKeyChar x = true

/-- The invariants every value produced by `parse_env` satisfies: it spans a
single line, and it can only retain an inline-comment marker when it starts
with a URL scheme (otherwise the marker would have been stripped). -/
def ValidVal (v : List Char) : Prop :=
  '\n' ∉ v ∧ (hasSub spaceHash v = true → httpPre v = true)

/-! ### splitChar / joinLines inversion -/

/-- `splitChar` always returns at least one segment. -/
theorem splitChar_ne_nil (sep : Char) : ∀ l : List Char, splitChar sep l ≠ [] := by
  intro l
  induction l with
  | nil => simp [splitChar]
  | cons c cs ih =>
    by_cases hc : c = sep
    · simp [splitChar, hc]
    · simp only [splitChar, hc, if_false, ite_false]
      cases hsp : splitChar sep cs with
      | nil => simp
      | cons p ps => simp

/-- Every segment produced by `splitChar` is free of the separator. -/
theorem splitChar_mem_no_sep (sep : Char) :
    ∀ content l, l ∈ splitChar sep content → sep ∉ l := by
  intro content
  induction content with
  | nil =>
    intro l hl
    simp [splitChar] at hl
    simp [hl]
  | cons c cs ih =>
    intro l hl
    by_cases hc : c = sep
    · simp only [splitChar, hc, if_true, ite_true, List.mem_cons] at hl
      rcases hl with rfl | hl
      · simp
      · exact ih l hl
    · simp only [splitChar, hc, if_false, ite_false] at hl
      cases hsp : splitChar sep cs with
      | nil => exact absurd hsp (splitChar_ne_nil sep cs)
      | cons p ps =>
        rw [hsp] at hl
        rcases List.mem_cons.mp hl with rfl | hl2
        · intro hmem
          rcases List.mem_cons.mp hmem with rfl | hmem2
          · exact hc rfl
          · exact ih p (by rw [hsp]; exact List.mem_cons_self p ps) hmem2
        · exact ih l (by rw [hsp]; exact List.mem_cons_of_mem p hl2)

/-- Splitting a text of the form `a ++ sep :: t` with `sep ∉ a` peels off
`a` as the first segment. -/
theorem splitChar_append_sep (sep : Char) :
    ∀ a t : List Char, sep ∉ a →
      splitChar sep (a ++ sep :: t) = a :: splitChar sep t := by
  intro a
  induction a with
  | nil => intro t _; simp [splitChar]
  | cons c a' ih =>
    intro t h
    have hc : ¬(c = sep) := fun e => h (by simp [e])
    have ha' : sep ∉ a' := fun m => h (List.mem_cons_of_mem _ m)
    rw [List.cons_append]
    simp only [splitChar, hc, if_false, ite_false]
    rw [ih t ha']

/-- Splitting inverts joining when every line is newline-free. -/
theorem splitChar_joinLines :
    ∀ ls : List (List Char), (∀ l ∈ ls, '\n' ∉ l) → ls ≠ [] →
      splitChar '\n' (joinLines ls) = ls := by
  intro ls
  induction ls with
  | nil => intro _ h; exact absurd rfl h
  | cons a rest ih =>
    intro hfree _
    cases rest with
    | nil =>
      exact splitChar_no_sep '\n' a (hfree a (List.mem_cons_self _ _))
    | cons b r =>
      have hjoin : joinLines (a :: b :: r) = a ++ '\n' :: joinLines (b :: r) := rfl
      rw [hjoin, splitChar_append_sep '\n' a _ (hfree a (List.mem_cons_self _ _))]
      rw [ih (fun l hl => hfree l (List.mem_cons_of_mem _ hl)) (by simp)]

/-! ### pyStrip and substring facts -/

/-- Stripping keeps only characters of the original list. -/
theorem pyStrip_subset {c : Char} {l : List Char} (h : c ∈ pyStrip l) : c ∈ l := by
  unfold pyStrip at h
  rw [List.mem_reverse] at h
  have h2 := (List.dropWhile_sublist isPySpace).subset h
  rw [List.mem_reverse] at h2
  exact (List.dropWhile_sublist isPySpace).subset h2

/-- A list whose first and last characters are not whitespace is unchanged
by stripping. -/
theorem pyStrip_eq_self {l : List Char}
    (h1 : ∀ c, l.head? = some c → isPySpace c = false)
    (h2 : ∀ c, l.getLast? = some c → isPySpace c = false) :
    pyStrip l = l := by
  unfold pyStrip
  have hd : l.dropWhile isPySpace = l := by
    cases l with
    | nil => rfl
    | cons c cs =>
      rw [List.dropWhile_cons_of_neg]
      simp [h1 c rfl]
  rw [hd]
  cases hr : l.reverse with
  | nil =>
    rw [List.reverse_eq_nil_iff] at hr
    simp [hr]
  | cons d ds =>
    have hld : l.getLast? = some d := by
      rw [← List.head?_reverse, hr]
      rfl
    rw [List.dropWhile_cons_of_neg (by simp [h2 d hld])]
    exact hr ▸ List.reverse_reverse l

/-- The strip of a list is an infix of it. -/
theorem pyStrip_within (l : List Char) : ∃ s t, l = s ++ pyStrip l ++ t := by
  unfold pyStrip
  refine ⟨l.takeWhile isPySpace,
    ((l.dropWhile isPySpace).reverse.takeWhile isPySpace).reverse, ?_⟩
  have h1 : l = l.takeWhile isPySpace ++ l.dropWhile isPySpace :=
    (List.takeWhile_append_dropWhile isPySpace l).symm
  have h2 : (l.dropWhile isPySpace).reverse =
      (l.dropWhile isPySpace).reverse.takeWhile isPySpace ++
        (l.dropWhile isPySpace).reverse.dropWhile isPySpace :=
    (List.takeWhile_append_dropWhile isPySpace (l.dropWhile isPySpace).reverse).symm
  have h3 : l.dropWhile isPySpace =
      ((l.dropWhile isPySpace).reverse.dropWhile isPySpace).reverse ++
        ((l.dropWhile isPySpace).reverse.takeWhile isPySpace).reverse := by
    conv_lhs => rw [← List.reverse_reverse (l.dropWhile isPySpace)]
    rw [← List.reverse_append, ← h2]
  rw [List.append_assoc, ← h3, ← h1]

/-- `hasSub` is the existence of a decomposition around an occurrence. -/
theorem hasSub_iff (needle : List Char) :
    ∀ l : List Char, hasSub needle l = true ↔ ∃ s t, l = s ++ needle ++ t := by
  intro l
  induction l with
  | nil =>
    simp only [hasSub, List.isEmpty_iff]
    constructor
    · intro h
      exact ⟨[], [], by simp [h]⟩
    · intro ⟨s, t, h⟩
      have := h.symm
      simp only [List.append_assoc, List.append_eq_nil] at this
      exact this.2.1
  | cons c cs ih =>
    simp only [hasSub, Bool.or_eq_true]
    constructor
    · intro h
      rcases h with h | h
      · obtain ⟨t, ht⟩ := List.isPrefixOf_iff_prefix.mp h
        exact ⟨[], t, by simp [ht.symm]⟩
      · obtain ⟨s, t, hst⟩ := ih.mp h
        exact ⟨c :: s, t, by simp [hst]⟩
    · intro ⟨s, t, hst⟩
      cases s with
      | nil =>
        left
        simp only [List.nil_append] at hst
        exact List.isPrefixOf_iff_prefix.mpr ⟨t, hst.symm⟩
      | cons a s' =>
        right
        simp only [List.cons_append, List.cons.injEq] at hst
        exact ih.mpr ⟨s', t, hst.2⟩

/-- Absence of an occurrence passes to any infix. -/
theorem hasSub_of_infix {needle m l : List Char}
    (hinf : ∃ s t, l = s ++ m ++ t) (hm : hasSub needle m = true) :
    hasSub needle l = true := by
  obtain ⟨s, t, rfl⟩ := hinf
  obtain ⟨s2, t2, rfl⟩ := (hasSub_iff needle m).mp hm
  exact (hasSub_iff needle _).mpr ⟨s ++ s2, t2 ++ t, by simp⟩

/-- The inline-comment step of the parser never leaves an unstripped
inline-comment marker in a non-URL value. -/
theorem stripInline_marker {v : List Char}
    (h : hasSub spaceHash (stripInline v) = true) : httpPre (stripInline v) = true := by
  unfold stripInline at h ⊢
  by_cases hc : hasSub spaceHash v = true ∧ httpPre v = false
  · rw [if_pos hc] at h ⊢
    exfalso
    have hocc : hasSub spaceHash (takeBeforeSub spaceHash v) = true :=
      hasSub_of_infix (pyStrip_within (takeBeforeSub spaceHash v)) h
    rw [hasSub_takeBeforeSub spaceHash (by decide) v] at hocc
    exact Bool.false_ne_true hocc
  · rw [if_neg hc] at h ⊢
    rcases Decidable.not_and_iff_or_not.mp hc with h1 | h2
    · exact absurd h (by simp [h1])
    · simpa using h2

/-- Every element of a `takeWhile` satisfies the predicate. -/
theorem takeWhile_mem_pred {α} (p : α → Bool) :
    ∀ l : List α, ∀ x ∈ l.takeWhile p, p x = true := by
  intro l
  induction l with
  | nil => simp
  | cons c cs ih =>
    by_cases hc : p c
    · intro x hx
      rw [List.takeWhile_cons_of_pos hc] at hx
      rcases List.mem_cons.mp hx with rfl | hx2
      · exact hc
      · exact ih x hx2
    · intro x hx
      rw [List.takeWhile_cons_of_neg hc] at hx
      exact absurd hx (List.not_mem_nil x)

/-- Quote-stripping keeps only characters of the original value. -/
theorem strip_quotes_subset {c : Char} {v : List Char} (h : c ∈ _strip_quotes v) : c ∈ v := by
  simp only [_strip_quotes] at h
  have hmid : c ∈ ((pyStrip v).drop 1).dropLast → c ∈ v := fun hx =>
    pyStrip_subset ((List.drop_sublist 1 (pyStrip v)).subset
      ((List.dropLast_sublist _).subset hx))
  split at h
  · exact hmid h
  · split at h
    · exact hmid h
    · exact pyStrip_subset h

/-- Inline-comment stripping keeps only characters of the original value. -/
theorem stripInline_subset {c : Char} {v : List Char} (h : c ∈ stripInline v) : c ∈ v := by
  unfold stripInline at h
  by_cases hc : hasSub spaceHash v = true ∧ httpPre v = false
  · rw [if_pos hc] at h
    exact (takeBeforeSub_leading spaceHash v).subset (pyStrip_subset h)
  · rwa [if_neg hc] at h

/-- Inversion of the `KEY=VALUE` regex match. -/
theorem matchKV_some {l k v : List Char} (h : matchKV l = some (k, v)) :
    ∃ c cs, l = c :: cs ∧ isKeyStart c = true ∧
      k = c :: cs.takeWhile isKeyChar ∧
      ∃ tail, (cs.dropWhile isKeyChar).dropWhile isPySpace = '=' :: tail ∧
        v = tail.dropWhile isPySpace := by
  cases l with
  | nil => exact absurd h (by simp [matchKV])
  | cons c cs =>
    by_cases hs : isKeyStart c
    · simp only [matchKV, hs, if_true, ite_true] at h
      cases hm : (cs.dropWhile isKeyChar).dropWhile isPySpace with
      | nil => rw [hm] at h; exact absurd h (by simp)
      | cons e tail =>
        rw [hm] at h
        split at h
        · rename_i tail2 heq
          simp only [Option.some.injEq, Prod.mk.injEq] at h
          obtain ⟨rfl, rfl⟩ := h
          obtain ⟨rfl, rfl⟩ : e = '=' ∧ tail = tail2 := by
            have := heq
            simp only [List.cons.injEq] at this
            exact this
          exact ⟨c, cs, rfl, hs, rfl, tail, hm, rfl⟩
        · exact absurd h (by simp)
    · exact absurd h (by simp [matchKV, hs])

/-- A key containing no newline: valid keys are newline-free. -/
theorem validKey_no_newline {k : List Char} (hk : ValidKey k) : '\n' ∉ k := by
  cases k with
  | nil => exact (hk : False).elim
  | cons c cs =>
    obtain ⟨hs, hall⟩ := hk
    intro hmem
    rcases List.mem_cons.mp hmem with heq | hmem2
    · rw [← heq] at hs
      exact absurd hs (by decide)
    · have := hall '\n' hmem2
      exact absurd this (by decide)

/-- Every pair emitted by the per-line parser on a newline-free line has a
valid key and a valid value. -/
theorem parseEnvLine_valid {l k v : List Char} (hnl : '\n' ∉ l)
    (h : parseEnvLine l = some (k, v)) : ValidKey k ∧ ValidVal v := by
  simp only [parseEnvLine] at h
  by_cases h1 : pyStrip l = []
  · rw [if_pos h1] at h; exact absurd h (by simp)
  rw [if_neg h1] at h
  by_cases h2 : (pyStrip l).head? = some '#'
  · rw [if_pos h2] at h; exact absurd h (by simp)
  rw [if_neg h2] at h
  cases hm : matchKV (pyStrip l) with
  | none => rw [hm] at h; exact absurd h (by simp)
  | some kv =>
    obtain ⟨k0, v0⟩ := kv
    rw [hm] at h
    simp only [Option.some.injEq, Prod.mk.injEq] at h
    obtain ⟨rfl, rfl⟩ := h
    obtain ⟨c, cs, hl, hstart, hkey, tail, htail, hval⟩ := matchKV_some hm
    constructor
    · rw [hkey]
      exact ⟨hstart, fun x hx => takeWhile_mem_pred isKeyChar cs x hx⟩
    · constructor
      · intro hmem
        have hv0 : '\n' ∈ v0 := strip_quotes_subset (stripInline_subset hmem)
        rw [hval] at hv0
        have htail2 : '\n' ∈ ('=' : Char) :: tail :=
          List.mem_cons_of_mem _ ((List.dropWhile_sublist isPySpace).subset hv0)
        rw [← htail] at htail2
        have hcs : '\n' ∈ cs :=
          (List.dropWhile_sublist isKeyChar).subset
            ((List.dropWhile_sublist isPySpace).subset htail2)
        have hstrip : '\n' ∈ pyStrip l := by
          rw [hl]
          exact List.mem_cons_of_mem _ hcs
        exact hnl (pyStrip_subset hstrip)
      · intro hsub
        exact stripInline_marker hsub

/-- Key-start characters are not whitespace. -/
theorem keyStart_not_space {c : Char} (h : isKeyStart c = true) : isPySpace c = false := by
  by_contra hcon
  simp only [Bool.not_eq_false] at hcon
  simp only [isPySpace, Bool.or_eq_true, decide_eq_true_eq] at hcon
  rcases hcon with ((((rfl | rfl) | rfl) | rfl) | rfl) | rfl <;> exact absurd h (by decide)

/-- A value fixed by `pyStrip` and not of a quote-pair shape is unchanged by
`_strip_quotes`. -/
theorem strip_quotes_plain {v : List Char}
    (hps : pyStrip v = v)
    (h1 : quotePairB '"' v = false) (h2 : quotePairB '\'' v = false) :
    _strip_quotes v = v := by
  simp only [_strip_quotes, hps]
  rw [if_neg, if_neg]
  · intro hcon
    simp only [quotePairB, Bool.and_eq_false_iff, beq_iff_eq, beq_eq_false_iff_ne,
      decide_eq_false_iff_not] at h2
    rcases h2 with (h2 | h2) | h2
    · exact absurd hcon.1 (by simpa using h2)
    · exact absurd hcon.2.1 (by simpa using h2)
    · exact absurd hcon.2.2 h2
  · intro hcon
    simp only [quotePairB, Bool.and_eq_false_iff, beq_iff_eq, beq_eq_false_iff_ne,
      decide_eq_false_iff_not] at h1
    rcases h1 with (h1 | h1) | h1
    · exact absurd hcon.1 (by simpa using h1)
    · exact absurd hcon.2.1 (by simpa using h1)
    · exact absurd hcon.2.2 h1

/-- Quote-stripping a double-quoted value recovers the value. -/
theorem strip_quotes_quoted (v : List Char) :
    _strip_quotes ('"' :: (v ++ ['"'])) = v := by
  have hlast : ('"' :: (v ++ ['"'])).getLast? = some '"' := by
    rw [show ('"' :: (v ++ ['"'])) = ('"' :: v) ++ ['"'] by simp]
    exact List.getLast?_concat _
  have hps : pyStrip ('"' :: (v ++ ['"'])) = '"' :: (v ++ ['"']) := by
    refine pyStrip_eq_self ?_ ?_
    · intro c hc
      simp only [List.head?_cons, Option.some.injEq] at hc
      subst hc
      decide
    · intro c hc
      rw [hlast] at hc
      simp only [Option.some.injEq] at hc
      subst hc
      decide
  simp only [_strip_quotes, hps]
  rw [if_pos ⟨rfl, hlast, by simp⟩]
  simp

/-- A value satisfying the parser invariant is unchanged by the
inline-comment step. -/
theorem stripInline_fixed {v : List Char}
    (hmark : hasSub spaceHash v = true → httpPre v = true) : stripInline v = v := by
  unfold stripInline
  rw [if_neg]
  intro hcon
  rw [hmark hcon.1] at hcon
  exact Bool.false_ne_true hcon.2.symm

/-- The `KEY=VALUE` regex on a rendered line recovers the key and the raw
value. -/
theorem matchKV_render {c : Char} {cs q : List Char} (hs : isKeyStart c = true)
    (hall : ∀ x ∈ cs, isKeyChar x = true)
    (hqh : ∀ d, q.head? = some d → isPySpace d = false) :
    matchKV ((c :: cs) ++ '=' :: q) = some (c :: cs, q) := by
  rw [List.cons_append]
  simp only [matchKV, hs, if_true, ite_true]
  have hdw : (cs ++ '=' :: q).dropWhile isKeyChar = '=' :: q := by
    rw [List.dropWhile_append_of_pos hall, List.dropWhile_cons_of_neg (by decide)]
  have htw : (cs ++ '=' :: q).takeWhile isKeyChar = cs := by
    rw [List.takeWhile_append_of_pos hall, List.takeWhile_cons_of_neg (by decide)]
    simp
  rw [hdw, List.dropWhile_cons_of_neg (by decide)]
  have hq : q.dropWhile isPySpace = q := by
    cases q with
    | nil => rfl
    | cons d ds => exact List.dropWhile_cons_of_neg (by simp [hqh d rfl])
  simp [htw, hq]

/-- Reparsing one rendered line recovers exactly the rendered pair. -/
theorem parseEnvLine_render {k v : List Char} (hk : ValidKey k) (hv : ValidVal v) :
    parseEnvLine (renderPair (k, v)) = some (k, v) := by
  cases k with
  | nil => exact hk.elim
  | cons c cs =>
    obtain ⟨hs, hall⟩ := hk
    obtain ⟨hnl, hmark⟩ := hv
    have hhead : ∀ q : List Char, ((c :: cs) ++ '=' :: q).head? = some c := by
      intro q
      simp
    have hne : ∀ q : List Char, ¬((c :: cs) ++ '=' :: q = []) := by
      intro q
      simp
    have hhash : ∀ q : List Char, ¬(((c :: cs) ++ '=' :: q).head? = some '#') := by
      intro q hcon
      rw [hhead q] at hcon
      injection hcon with hcon
      subst hcon
      exact absurd hs (by decide)
    by_cases hq : needsQuote v = true
    · have hrp : renderPair (c :: cs, v) = (c :: cs) ++ '=' :: ('"' :: (v ++ ['"'])) := by
        simp [renderPair, hq]
      have hline_last :
          ((c :: cs) ++ '=' :: ('"' :: (v ++ ['"']))).getLast? = some '"' := by
        rw [show (c :: cs) ++ '=' :: ('"' :: (v ++ ['"'])) =
          ((c :: cs) ++ '=' :: '"' :: v) ++ ['"'] by simp]
        exact List.getLast?_concat _
      have hps : pyStrip ((c :: cs) ++ '=' :: ('"' :: (v ++ ['"']))) =
          (c :: cs) ++ '=' :: ('"' :: (v ++ ['"'])) := by
        refine pyStrip_eq_self ?_ ?_
        · intro d hd
          rw [hhead] at hd
          injection hd with hd
          subst hd
          exact keyStart_not_space hs
        · intro d hd
          rw [hline_last] at hd
          injection hd with hd
          subst hd
          decide
      have hmk : matchKV ((c :: cs) ++ '=' :: ('"' :: (v ++ ['"']))) =
          some (c :: cs, '"' :: (v ++ ['"'])) := by
        refine matchKV_render hs hall ?_
        intro d hd
        simp only [List.head?_cons, Option.some.injEq] at hd
        subst hd
        decide
      rw [hrp]
      simp only [parseEnvLine, hps]
      rw [if_neg (hne _), if_neg (hhash _), hmk]
      show some (c :: cs, stripInline (_strip_quotes ('"' :: (v ++ ['"'])))) =
        some (c :: cs, v)
      rw [strip_quotes_quoted, stripInline_fixed hmark]
    · have hqf : needsQuote v = false := by simpa using hq
      simp only [needsQuote, Bool.or_eq_false_iff] at hqf
      obtain ⟨⟨⟨⟨h1, h2⟩, h3⟩, h4⟩, h5⟩ := hqf
      have hvh : ∀ d, v.head? = some d → isPySpace d = false := by
        intro d hd
        rw [hd] at h3
        exact h3
      have hvl : ∀ d, v.getLast? = some d → isPySpace d = false := by
        intro d hd
        rw [hd] at h4
        exact h4
      have hpsv : pyStrip v = v := pyStrip_eq_self hvh hvl
      have hsq : _strip_quotes v = v := strip_quotes_plain hpsv h1 h2
      have hrp : renderPair (c :: cs, v) = (c :: cs) ++ '=' :: v := by
        simp [renderPair, hq]
      have hps : pyStrip ((c :: cs) ++ '=' :: v) = (c :: cs) ++ '=' :: v := by
        refine pyStrip_eq_self ?_ ?_
        · intro d hd
          rw [hhead] at hd
          injection hd with hd
          subst hd
          exact keyStart_not_space hs
        · intro d hd
          cases hv0 : v with
          | nil =>
            subst hv0
            rw [show ((c :: cs) ++ ['=']).getLast? = some '=' from List.getLast?_concat _] at hd
            injection hd with hd
            subst hd
            decide
          | cons e es =>
            subst hv0
            rw [show (c :: cs) ++ '=' :: e :: es = ((c :: cs) ++ ['=']) ++ e :: es by simp,
              List.getLast?_append] at hd
            cases hsome : (e :: es).getLast? with
            | none =>
              rw [List.getLast?_eq_none_iff] at hsome
              exact absurd hsome (by simp)
            | some x =>
              rw [hsome] at hd
              simp only [Option.or] at hd
              injection hd with hd
              subst hd
              exact hvl x hsome
      have hmk : matchKV ((c :: cs) ++ '=' :: v) = some (c :: cs, v) :=
        matchKV_render hs hall hvh
      rw [hrp]
      simp only [parseEnvLine, hps]
      rw [if_neg (hne _), if_neg (hhash _), hmk]
      show some (c :: cs, stripInline (_strip_quotes v)) = some (c :: cs, v)
      rw [hsq, stripInline_fixed hmark]

/-- Rendered lines never contain a newline. -/
theorem renderPair_no_newline {k v : List Char} (hk : ValidKey k) (hv : ValidVal v) :
    '\n' ∉ renderPair (k, v) := by
  intro hmem
  simp only [renderPair] at hmem
  rcases List.mem_append.mp hmem with hk2 | hrest
  · exact validKey_no_newline hk hk2
  · rcases List.mem_cons.mp hrest with heq | hmem2
    · exact absurd heq (by decide)
    · by_cases hq : needsQuote v = true
      · rw [if_pos hq] at hmem2
        rcases List.mem_cons.mp hmem2 with heq | hmem3
        · exact absurd heq (by decide)
        · rcases List.mem_append.mp hmem3 with hv2 | hlast
          · exact hv.1 hv2
          · rcases List.mem_cons.mp hlast with heq | hnil
            · exact absurd heq (by decide)
            · exact absurd hnil (List.not_mem_nil _)
      · rw [if_neg hq] at hmem2
        exact hv.1 hmem2

/-- `filterMap` by a function that fixes every element of a list is the
identity on that list. -/
theorem filterMap_id_of_some {α} (f : α → Option α) :
    ∀ l : List α, (∀ x ∈ l, f x = some x) → l.filterMap f = l := by
  intro l
  induction l with
  | nil => simp
  | cons a as ih =>
    intro h
    rw [List.filterMap_cons, h a (List.mem_cons_self a as),
      ih (fun x hx => h x (List.mem_cons_of_mem a hx))]

/-- Reparsing the rendered form of any list of valid pairs yields exactly
that list. -/
theorem parse_env_render_of_valid (ps : List (List Char × List Char))
    (hps : ∀ p ∈ ps, ValidKey p.1 ∧ ValidVal p.2) :
    (parse_env (renderPairs ps)).1 = ps := by
  cases ps with
  | nil => rfl
  | cons p rest =>
    unfold parse_env renderPairs
    rw [splitChar_joinLines _ ?_ (by simp)]
    · rw [List.filterMap_map]
      refine filterMap_id_of_some _ _ ?_
      intro x hx
      obtain ⟨hk, hv⟩ := hps x hx
      obtain ⟨k, v⟩ := x
      exact parseEnvLine_render hk hv
    · intro l hl
      rw [List.mem_map] at hl
      obtain ⟨q, hq, rfl⟩ := hl
      exact renderPair_no_newline (hps q hq).1 (hps q hq).2

/-- C6: Environment-style parsing is idempotent on well-formed input: for
every input text, rendering each extracted pair back as a `KEY=VALUE` line
(re-quoting the value when it contains special characters such as an
inline-comment marker, surrounding quotes, or surrounding whitespace) and
parsing the rendered lines with `parse_env` yields exactly the same pair
sequence, in the same order, again with no failure reason. -/
theorem parse_env_roundtrip (content : List Char) :
    (parse_env (renderPairs (parse_env content).1)).1 = (parse_env content).1 ∧
    (parse_env (renderPairs (parse_env content).1)).2 = none := by
  refine ⟨?_, rfl⟩
  apply parse_env_render_of_valid
  intro p hp
  simp only [parse_env, List.mem_filterMap] at hp
  obtain ⟨line, hline, hparse⟩ := hp
  have hnl : '\n' ∉ line := splitChar_mem_no_sep '\n' content line hline
  obtain ⟨k, v⟩ := p
  exact parseEnvLine_valid hnl hparse

/-! ### Concrete sanity checks -/

example : KNOWN_KEYS.map Prod.fst |>.Nodup := by decide

example : renderPairs [("A".data, "'a'".data)] = "A=\"'a'\"".data := by decide

example : (parse_env (renderPairs [("A".data, "\x20x ".data)])).1 =
    [("A".data, "\x20x ".data)] := by decide

example : (parse_env (renderPairs [("A".data, "http://u #f".data)])).1 =
    [("A".data, "http://u #f".data)] := by decide
